import Mathlib

set_option maxRecDepth 4000

/-!
Shallow embedding of the consensus core of the blockchain voting system
(`blockchain.py`, `crypto_utils.py`, and the consensus-relevant parts of
`app.py`).  The external libraries used by `crypto_utils.py` (`ecdsa`,
`base64`, `hashlib`) are modelled as abstract parameters bundled in a
`CryptoLib` record; everything else is translated directly from the
source.  Python floats for timestamps are modelled as naturals (the
timestamp is informational and opaque to every checked property), and
Python truthiness (`timestamp or time()`, `hash or ...`, `if not
proposer_pub`) is modelled explicitly as zero/empty tests.
-/

/-- Decimal digit characters, as produced by Python's `json.dumps` for a
non-negative integer. -/
def digitChar : Nat → Char
  | 0 => '0'
  | 1 => '1'
  | 2 => '2'
  | 3 => '3'
  | 4 => '4'
  | 5 => '5'
  | 6 => '6'
  | 7 => '7'
  | 8 => '8'
  | _ => '9'

/-- Inverse of `digitChar` on actual digits. -/
def digitVal : Char → Nat
  | '0' => 0
  | '1' => 1
  | '2' => 2
  | '3' => 3
  | '4' => 4
  | '5' => 5
  | '6' => 6
  | '7' => 7
  | '8' => 8
  | '9' => 9
  | _ => 0

/-- Fuel-indexed decimal rendering of a natural number (most significant
digit first), mirroring Python's decimal rendering of an `int` inside
`json.dumps`. -/
def natCharsGo : Nat → Nat → List Char
  | 0, _ => []
  | f + 1, n => if n < 10 then [digitChar n] else natCharsGo f (n / 10) ++ [digitChar (n % 10)]

/-- Decimal rendering of a natural number. -/
def natChars (n : Nat) : List Char := natCharsGo (n + 1) n

/-- Reads a decimal digit string back into a natural number. -/
def unDigits (l : List Char) : Nat := l.foldl (fun a c => 10 * a + digitVal c) 0

/-- Python's `str.startswith`, on the character lists underlying the two
strings. -/
def pyStartswith (s pre : String) : Bool := List.isPrefixOf pre.data s.data

/-- A string that `json.dumps` serializes verbatim between quotes: it
contains no quote and no backslash, so no escaping happens.  Every string
the running system feeds into a block (hex digests, validator ids,
`"Vote: YES"` / `"Vote: NO"` transactions) is plain. -/
def PlainStr (s : String) : Prop := '"' ∉ s.data ∧ '\\' ∉ s.data

instance (s : String) : Decidable (PlainStr s) := by
  unfold PlainStr; infer_instance

/-- Plainness of an optional string (`none` is Python's `None`). -/
def PlainOpt : Option String → Prop
  | none => True
  | some p => PlainStr p

instance : (o : Option String) → Decidable (PlainOpt o)
  | none => .isTrue trivial
  | some p => inferInstanceAs (Decidable (PlainStr p))

/-- The five signable fields of a block: exactly the dictionary serialized
by `crypto_utils.hash_block_for_signing` (lines 22-32) and by
`Block.calculate_hash` (blockchain.py lines 30-38). -/
structure BlockFields where
  index : Nat
  timestamp : Nat
  transactions : List String
  previous_hash : String
  proposer : Option String
deriving DecidableEq

/-- All five field payloads are plain strings. -/
def PlainFields (f : BlockFields) : Prop :=
  PlainStr f.previous_hash ∧ PlainOpt f.proposer ∧ ∀ t ∈ f.transactions, PlainStr t

instance (f : BlockFields) : Decidable (PlainFields f) := by
  unfold PlainFields; infer_instance

/-- JSON rendering of the transaction list (contents of the brackets plus
the closing bracket handled by the caller): `json.dumps` renders
`["a", "b"]` with a comma-space separator. -/
def encTxs : List String → List Char
  | [] => []
  | [t] => '"' :: t.data ++ ['"']
  | t :: t2 :: ts => '"' :: t.data ++ '"' :: ',' :: ' ' :: encTxs (t2 :: ts)

/-- JSON rendering of the nullable proposer field. -/
def encProposer : Option String → List Char
  | none => 'n' :: 'u' :: 'l' :: 'l' :: []
  | some p => '"' :: p.data ++ ['"']

/-- The byte sequence `json.dumps({...}, sort_keys=True)` produces for the
five signable fields; keys appear in alphabetical order (index,
previous_hash, proposer, timestamp, transactions) with the default
`", "` / `": "` separators.  This is the exact string hashed by both
`hash_block_for_signing` and `Block.calculate_hash`. -/
def signingPayload (f : BlockFields) : List Char :=
  ("\x7b\"index\": ").data ++ natChars f.index ++
  (", \"previous_hash\": \"").data ++ f.previous_hash.data ++
  ("\", \"proposer\": ").data ++ encProposer f.proposer ++
  (", \"timestamp\": ").data ++ natChars f.timestamp ++
  (", \"transactions\": [").data ++ encTxs f.transactions ++ ("]\x7d").data

/-- The abstract interface of the external crypto libraries used by
`crypto_utils.py`: PEM key parsing and base64 decoding (which can fail on
malformed input), raw ECDSA verification (which can raise, e.g.
`BadSignatureError`, modelled as `none`), and the SHA-256 digest in raw
(`.digest()`) and hex (`.hexdigest()`) form. -/
structure CryptoLib where
  fromPem : String → Option String
  b64decode : String → Option String
  rawVerify : String → String → String → Option Bool
  shaBytes : List Char → String
  shaHex : List Char → String

/-- crypto_utils.py lines 14-20: `verify_pem` wraps key parsing, base64
decoding and raw verification in a `try`/`except` returning `False`. -/
def verify_pem (lib : CryptoLib) (vk_pem : String) (message : String) (sig_b64 : String) : Bool :=
  match lib.fromPem vk_pem with
  | none => false
  | some vk =>
    match lib.b64decode sig_b64 with
    | none => false
    | some sig =>
      match lib.rawVerify vk sig message with
      | none => false
      | some b => b

/-- One entry of a block's `signatures` list; the Python code reads both
keys with `.get`, so either may be absent. -/
structure SigEntry where
  validator : Option String
  sig : Option String
deriving DecidableEq

/-- The dictionary handed to `append_committed_block`: `index`,
`timestamp`, `transactions` and `previous_hash` are accessed with `[...]`
(required), the rest with `.get` (optional).  A missing `signatures` key
behaves exactly like an empty list, so it is modelled as a plain list. -/
structure BlockDict where
  index : Nat
  timestamp : Nat
  transactions : List String
  previous_hash : String
  proposer : Option String
  proposer_sig : Option String
  signatures : List SigEntry
  hash : Option String
deriving DecidableEq

/-- The five signable fields of a block dictionary, as read by
`hash_block_for_signing`. -/
def bdFields (bd : BlockDict) : BlockFields :=
  ⟨bd.index, bd.timestamp, bd.transactions, bd.previous_hash, bd.proposer⟩

/-- crypto_utils.py lines 22-32: SHA-256 (raw digest) of the canonical
JSON of the five signable fields. -/
def hash_block_for_signing (lib : CryptoLib) (bd : BlockDict) : String :=
  lib.shaBytes (signingPayload (bdFields bd))

/-- blockchain.py lines 30-38 (`Block.calculate_hash`): SHA-256 hex digest
of the same canonical JSON. -/
def calcHash (lib : CryptoLib) (f : BlockFields) : String :=
  lib.shaHex (signingPayload f)

/-- A constructed `Block` (blockchain.py lines 19-50). -/
structure Block where
  index : Nat
  timestamp : Nat
  transactions : List String
  previous_hash : String
  proposer : Option String
  proposer_sig : Option String
  signatures : List SigEntry
  hash : String
deriving DecidableEq

/-- The five signable fields of a constructed block. -/
def Block.fields (b : Block) : BlockFields :=
  ⟨b.index, b.timestamp, b.transactions, b.previous_hash, b.proposer⟩

/-- Python's `timestamp or time()`: a zero (falsy) timestamp is replaced
by the current time `now`. -/
def effTimestamp (now : Nat) (t : Nat) : Nat := if t = 0 then now else t

/-- The signable fields a draft acquires once `Block.__init__` has applied
the `timestamp or time()` substitution. -/
def effFields (now : Nat) (bd : BlockDict) : BlockFields :=
  ⟨bd.index, effTimestamp now bd.timestamp, bd.transactions, bd.previous_hash, bd.proposer⟩

/-- blockchain.py lines 20-28 (`Block.__init__`): `timestamp or time()`,
`signatures or []`, `hash or self.calculate_hash()`.  Arguments follow the
Python positional order. -/
def Block.mkPy (lib : CryptoLib) (now : Nat) (index : Nat) (transactions : List String)
    (previous_hash : String) (timestamp : Option Nat) (hash : Option String)
    (proposer : Option String) (proposer_sig : Option String)
    (signatures : Option (List SigEntry)) : Block :=
  let ts : Nat := match timestamp with
    | some t => effTimestamp now t
    | none => now
  let f : BlockFields := ⟨index, ts, transactions, previous_hash, proposer⟩
  let h : String := match hash with
    | some s => if s = "" then calcHash lib f else s
    | none => calcHash lib f
  ⟨index, ts, transactions, previous_hash, proposer, proposer_sig, signatures.getD [], h⟩

/-- One entry of `validators.json`; `pubkey` is optional (the
`pubkey_file` variant is modelled as the file's content when present,
absence of both as `none`). -/
structure Validator where
  id : Option String
  pubkey : Option String
deriving DecidableEq

/-- The mutable state of a `Blockchain` object: the chain, the pending
transaction list and the validator registry (blockchain.py lines 52-61).
The file paths and `max_tx_per_block` play no role in the checked
operations. -/
structure Blockchain where
  chain : List Block
  current_transactions : List String
  validators : List Validator
deriving DecidableEq

/-- blockchain.py lines 202-210 (`_get_validator_pubkey`): first validator
entry whose `id` matches and which carries a public key; a matching entry
without a key is skipped (the loop keeps going). -/
def getValidatorPubkey : List Validator → Option String → Option String
  | [], _ => none
  | v :: rest, vid =>
    if v.id = vid then
      match v.pubkey with
      | some p => some p
      | none => getValidatorPubkey rest vid
    else getValidatorPubkey rest vid

/-- blockchain.py lines 103-110: the deduplicated-by-identity set of
validator ids whose attestation verifies against the signing digest `h`.
`if vpub and verify_pem(vpub, h, sig)`: an unknown or empty public key is
falsy, and a missing `sig` key makes `verify_pem` return `False` (the
`base64` exception is swallowed). -/
def collectValidSigs (lib : CryptoLib) (validators : List Validator) (h : String)
    (sigs : List SigEntry) : List (Option String) :=
  sigs.foldl (fun acc e =>
    match getValidatorPubkey validators e.validator with
    | none => acc
    | some vpub =>
      if vpub = "" then acc
      else
        match e.sig with
        | none => acc
        | some s =>
          if verify_pem lib vpub h s then
            (if e.validator ∈ acc then acc else acc ++ [e.validator])
          else acc) []

/-- blockchain.py lines 116-126: `block_dict.get('hash')`, recomputed via a
fresh `Block` (which applies `timestamp or time()`) when absent or falsy
(empty). -/
def blockHashOf (lib : CryptoLib) (now : Nat) (bd : BlockDict) : String :=
  match bd.hash with
  | some s => if s = "" then calcHash lib (effFields now bd) else s
  | none => calcHash lib (effFields now bd)

/-- blockchain.py lines 94-146: the body of `append_committed_block` after
the chain-continuity check. -/
def appendChecked (lib : CryptoLib) (now : Nat) (bc : Blockchain) (bd : BlockDict) :
    (Bool × String) × Blockchain :=
  match getValidatorPubkey bc.validators bd.proposer with
  | none => ((false, "unknown proposer"), bc)
  | some proposer_pub =>
    if proposer_pub = "" then ((false, "unknown proposer"), bc)
    else
      let h := hash_block_for_signing lib bd
      if ¬ (verify_pem lib proposer_pub h (bd.proposer_sig.getD "") = true) then
        ((false, "invalid proposer signature"), bc)
      else
        let valid_sigs := collectValidSigs lib bc.validators h bd.signatures
        if valid_sigs.length < 1 then
          ((false, "not enough valid signatures (" ++ toString valid_sigs.length ++ "/1)"), bc)
        else
          let block_obj := Block.mkPy lib now bd.index bd.transactions bd.previous_hash
            (some bd.timestamp) (some (blockHashOf lib now bd)) bd.proposer bd.proposer_sig
            (some bd.signatures)
          ((true, "appended"),
            { bc with
              chain := bc.chain ++ [block_obj],
              current_transactions :=
                bd.transactions.foldl (fun cur tx => cur.erase tx) bc.current_transactions })

/-- blockchain.py lines 86-146 (`append_committed_block`): the continuity
check `if self.chain and block_dict['previous_hash'] != self.chain[-1].hash`
followed by the validation/append body.  Returns the `(ok, message)` pair
together with the updated state. -/
def append_committed_block (lib : CryptoLib) (now : Nat) (bc : Blockchain) (bd : BlockDict) :
    (Bool × String) × Blockchain :=
  match bc.chain.getLast? with
  | some tip =>
    if bd.previous_hash ≠ tip.hash then ((false, "previous_hash mismatch"), bc)
    else appendChecked lib now bc bd
  | none => appendChecked lib now bc bd

/-- The pre-computed hash constant of `FIXED_GENESIS_BLOCK`
(blockchain.py line 16). -/
def FIXED_GENESIS_hashHex : String :=
  "6d0c9826f4079236c2a09067d2d2efccc32de9060075ed2df4fdb4b6a307e7a7"

/-- blockchain.py lines 71-84 (`create_genesis_block`): appends the fixed
genesis constant (index 0, fixed timestamp, one placeholder transaction,
previous hash `"0"`, no proposer, empty signatures, pre-computed hash). -/
def create_genesis_block (lib : CryptoLib) (now : Nat) (bc : Blockchain) : Blockchain :=
  { bc with
    chain := bc.chain ++
      [Block.mkPy lib now 0 ["Genesis Block"] "0" (some 1763476947)
        (some FIXED_GENESIS_hashHex) none none (some [])] }

/-- blockchain.py lines 192-200: the loop body of `is_chain_valid` from
position 1 on, carrying the previous block. -/
def chainValidFrom (lib : CryptoLib) : Block → List Block → Bool × String
  | _, [] => (true, "Blockchain is valid!")
  | prev, cur :: rest =>
    if cur.hash ≠ calcHash lib cur.fields then
      (false, "Block " ++ toString cur.index ++ " has invalid hash!")
    else if cur.previous_hash ≠ prev.hash then
      (false, "Block " ++ toString cur.index ++ " has invalid previous hash!")
    else chainValidFrom lib cur rest

/-- blockchain.py lines 192-200 (`is_chain_valid`). -/
def is_chain_valid (lib : CryptoLib) (bc : Blockchain) : Bool × String :=
  match bc.chain with
  | [] => (true, "Blockchain is valid!")
  | b :: rest => chainValidFrom lib b rest

/-- One pass of the vote-counting loop over a transaction list
(blockchain.py lines 179-189): `startswith("Vote: YES")` else
`startswith("Vote: NO")`. -/
def countTxs (acc : Nat × Nat) (txs : List String) : Nat × Nat :=
  txs.foldl (fun a tx =>
    if pyStartswith tx "Vote: YES" then (a.1 + 1, a.2)
    else if pyStartswith tx "Vote: NO" then (a.1, a.2 + 1)
    else a) acc

/-- blockchain.py lines 176-190 (`count_votes`): every transaction of
every block, then every pending transaction; returns (YES, NO). -/
def count_votes (bc : Blockchain) : Nat × Nat :=
  countTxs (bc.chain.foldl (fun a b => countTxs a b.transactions) (0, 0))
    bc.current_transactions

/-- The per-block record written by `Block.to_dict` (blockchain.py lines
40-50), i.e. one element of the persisted JSON array. -/
structure BlockRecord where
  index : Nat
  timestamp : Nat
  transactions : List String
  previous_hash : String
  proposer : Option String
  proposer_sig : Option String
  signatures : List SigEntry
  hash : String
deriving DecidableEq

/-- blockchain.py lines 40-50 (`Block.to_dict`). -/
def Block.to_dict (b : Block) : BlockRecord :=
  ⟨b.index, b.timestamp, b.transactions, b.previous_hash, b.proposer, b.proposer_sig,
    b.signatures, b.hash⟩

/-- blockchain.py lines 160-171: rebuilding one `Block` from a persisted
record (all eight keys are present in a record written by `to_dict`). -/
def Block.fromRecord (lib : CryptoLib) (now : Nat) (r : BlockRecord) : Block :=
  Block.mkPy lib now r.index r.transactions r.previous_hash (some r.timestamp) (some r.hash)
    r.proposer r.proposer_sig (some r.signatures)

/-- blockchain.py lines 148-153 (`to_dict` / `save_chain`): the persisted
content is the list of per-block records. -/
def save_chain (bc : Blockchain) : List BlockRecord := bc.chain.map Block.to_dict

/-- blockchain.py lines 155-174 (`load_chain`): `none` models a missing
file, `some []` an empty one; both fall through to genesis creation. -/
def load_chain (lib : CryptoLib) (now : Nat) (data : Option (List BlockRecord))
    (bc : Blockchain) : Blockchain :=
  match data with
  | some (r :: rs) => { bc with chain := (r :: rs).map (Block.fromRecord lib now) }
  | _ => create_genesis_block lib now bc

/-- app.py line 119: `NUM_VALIDATORS = max(1, len(validators))`. -/
def NUM_VALIDATORS (n : Nat) : Nat := max 1 n

/-- app.py line 120: `THRESHOLD = max(1, (NUM_VALIDATORS // 2) + 1)`. -/
def THRESHOLD (n : Nat) : Nat := max 1 (NUM_VALIDATORS n / 2 + 1)

/-- app.py lines 133-139: the block candidate built by the proposer loop.
`index` is the current ledger height `len(blockchain.chain)`.  (Python
indexes `chain[-1]`, which presupposes a non-empty chain; the default
`""` keeps the definition total.) -/
def block_candidate (now : Nat) (node_id : String) (mempool : List String) (max_tx : Nat)
    (bc : Blockchain) : BlockDict :=
  { index := bc.chain.length,
    timestamp := now,
    transactions := mempool.take max_tx,
    previous_hash := ((bc.chain.getLast?).map Block.hash).getD "",
    proposer := some node_id,
    proposer_sig := none,
    signatures := [],
    hash := none }

/-- A concrete, fully computable instantiation of the crypto interface,
used to evaluate the embedded code on explicit inputs: a "signature" is
valid exactly when it is the public key followed by the message, and the
hex digest is the payload tagged with `"HEX:"`. -/
def lib1 : CryptoLib :=
  { fromPem := fun p => some p,
    b64decode := fun s => some s,
    rawVerify := fun k s m => some (s == k ++ m),
    shaBytes := fun cs => String.mk cs,
    shaHex := fun cs => "HEX:" ++ String.mk cs }

/-- Under `lib1`, the signature of key `pub` over the signing digest of
fields `f`. -/
def sigFor (pub : String) (f : BlockFields) : String := pub ++ String.mk (signingPayload f)

/-- Validator `A` with public key `PA`. -/
def vA : Validator := ⟨some "A", some "PA"⟩

/-- Validator `B` with public key `PB`. -/
def vB : Validator := ⟨some "B", some "PB"⟩

/-- Validator `C` with public key `PC`. -/
def vC : Validator := ⟨some "C", some "PC"⟩

/-- Validator `D` with public key `PD`. -/
def vD : Validator := ⟨some "D", some "PD"⟩

/-- A ledger holding exactly the genesis block with a one-validator
registry. -/
def bcGen1 : Blockchain := create_genesis_block lib1 7 ⟨[], [], [vA]⟩

/-- A ledger holding exactly the genesis block with a four-validator
registry. -/
def bcGen4 : Blockchain := create_genesis_block lib1 7 ⟨[], [], [vA, vB, vC, vD]⟩

/-- A draft authored by validator `A` under `lib1`: proposer signature and
a single self-attestation over the draft's own signing digest. -/
def mkDraftA (i : Nat) (txs : List String) (prev : String) (h : Option String) : BlockDict :=
  { index := i,
    timestamp := 5,
    transactions := txs,
    previous_hash := prev,
    proposer := some "A",
    proposer_sig := some (sigFor "PA" ⟨i, 5, txs, prev, some "A"⟩),
    signatures := [⟨some "A", some (sigFor "PA" ⟨i, 5, txs, prev, some "A"⟩)⟩],
    hash := h }

/-- A validly signed draft extending genesis that supplies the forged
hash value `"FORGED"`. -/
def bdForged : BlockDict := mkDraftA 1 ["t"] FIXED_GENESIS_hashHex (some "FORGED")

/-- A validly signed draft extending genesis carrying exactly one
attestation and no supplied hash. -/
def bdOneSig : BlockDict := mkDraftA 1 ["x"] FIXED_GENESIS_hashHex none

/-- A validly signed draft extending genesis whose `index` field is 999. -/
def bd999 : BlockDict := mkDraftA 999 ["x"] FIXED_GENESIS_hashHex none

/-- An empty ledger (no genesis) with a one-validator registry. -/
def bcEmpty : Blockchain := ⟨[], [], [vA]⟩

/-- An empty ledger with an empty validator registry. -/
def bcNoVal : Blockchain := ⟨[], ["p"], []⟩

/-- A crypto interface whose PEM parser rejects every input. -/
def libAllFail : CryptoLib :=
  { fromPem := fun _ => none,
    b64decode := fun s => some s,
    rawVerify := fun _ _ _ => some false,
    shaBytes := fun cs => String.mk cs,
    shaHex := fun cs => String.mk cs }

/-- Two committed blocks used by the vote-tally scenario: transactions
`["Vote: YES", "x"]` and `["Vote: NO"]`. -/
def blockYes : Block := ⟨1, 3, ["Vote: YES", "x"], "0", none, none, [], "h1"⟩

/-- Second block of the vote-tally scenario. -/
def blockNo : Block := ⟨2, 4, ["Vote: NO"], "h1", none, none, [], "h2"⟩

/-- The vote-tally scenario ledger: two committed blocks plus the pending
transaction `"Vote: YES"`. -/
def bcTally : Blockchain := ⟨[blockYes, blockNo], ["Vote: YES"], []⟩

/-- Two drafts differing only in their `index` field, with plain string
fields, used to exercise digest injectivity. -/
def bdDigestA : BlockDict := ⟨3, 5, ["tx1"], "prev", some "A", some "s1", [], none⟩

/-- Companion draft to `bdDigestA` with a different `index`. -/
def bdDigestB : BlockDict := ⟨4, 5, ["tx1"], "prev", some "A", some "s2", [], none⟩

/-- `digitVal` inverts `digitChar` on digits. -/
theorem digitVal_digitChar (d : Nat) (h : d < 10) : digitVal (digitChar d) = d := by
  interval_cases d <;> rfl

/-- Every character of a decimal rendering is a digit character. -/
theorem mem_natCharsGo (f : Nat) : ∀ n : Nat, ∀ c ∈ natCharsGo f n, ∃ d, d < 10 ∧ c = digitChar d := by
  induction f with
  | zero => intro n c hc; simp [natCharsGo] at hc
  | succ f ih =>
    intro n c hc
    by_cases h10 : n < 10
    · simp [natCharsGo, h10] at hc
      exact ⟨n, h10, hc⟩
    · simp only [natCharsGo, if_neg h10, List.mem_append, List.mem_singleton] at hc
      rcases hc with hc | hc
      · exact ih (n / 10) c hc
      · exact ⟨n % 10, Nat.mod_lt _ (by omega), hc⟩

/-- Digit characters are not commas. -/
theorem digitChar_ne_comma (d : Nat) (h : d < 10) : digitChar d ≠ ',' := by
  interval_cases d <;> decide

/-- A decimal rendering never contains a comma. -/
theorem comma_not_mem_natChars (n : Nat) : ',' ∉ natChars n := by
  intro hc
  obtain ⟨d, hd, he⟩ := mem_natCharsGo _ _ _ hc
  exact digitChar_ne_comma d hd he.symm

/-- Folding one more digit onto a read-back value. -/
theorem unDigits_append (l : List Char) (c : Char) :
    unDigits (l ++ [c]) = 10 * unDigits l + digitVal c := by
  simp [unDigits, List.foldl_append]

/-- Reading a decimal rendering back yields the original number. -/
theorem unDigits_natCharsGo (f : Nat) : ∀ n : Nat, n < f → unDigits (natCharsGo f n) = n := by
  induction f with
  | zero => intro n h; omega
  | succ f ih =>
    intro n h
    by_cases h10 : n < 10
    · simp [natCharsGo, h10, unDigits, digitVal_digitChar n h10]
    · have hdiv : n / 10 < f := by
        have := Nat.div_lt_self (show 0 < n by omega) (show 1 < 10 by omega)
        omega
      simp only [natCharsGo, if_neg h10]
      rw [unDigits_append, ih _ hdiv, digitVal_digitChar _ (Nat.mod_lt _ (by omega))]
      omega

/-- Decimal rendering is injective. -/
theorem natChars_inj {m n : Nat} (h : natChars m = natChars n) : m = n := by
  have hm := unDigits_natCharsGo (m + 1) m (by omega)
  have hn := unDigits_natCharsGo (n + 1) n (by omega)
  unfold natChars at h
  rw [h, hn] at hm
  exact hm.symm

/-- Splitting a concatenation at the first occurrence of a delimiter
character that occurs in neither left part. -/
theorem splitAtChar {c : Char} : ∀ (a1 b1 a2 b2 : List Char), c ∉ a1 → c ∉ a2 →
    a1 ++ c :: b1 = a2 ++ c :: b2 → a1 = a2 ∧ b1 = b2 := by
  intro a1
  induction a1 with
  | nil =>
    intro b1 a2 b2 _ h2 h
    cases a2 with
    | nil =>
      simp only [List.nil_append] at h
      injection h with _ h
      exact ⟨rfl, h⟩
    | cons x xs =>
      simp only [List.nil_append, List.cons_append] at h
      injection h with h1 _
      exact absurd (h1 ▸ List.mem_cons_self x xs) h2
  | cons y ys ih =>
    intro b1 a2 b2 h1 h2 h
    cases a2 with
    | nil =>
      simp only [List.nil_append, List.cons_append] at h
      injection h with hcy _
      exact absurd (hcy ▸ List.mem_cons_self y ys) h1
    | cons x xs =>
      simp only [List.cons_append] at h
      injection h with hyx h
      have h1' : c ∉ ys := fun hm => h1 (List.mem_cons_of_mem _ hm)
      have h2' : c ∉ xs := fun hm => h2 (List.mem_cons_of_mem _ hm)
      obtain ⟨he, hb⟩ := ih _ _ _ h1' h2' h
      exact ⟨by rw [hyx, he], hb⟩

/-- The underlying character list determines the string. -/
theorem strData_inj {s t : String} (h : s.data = t.data) : s = t := by
  cases s; cases t; exact congrArg String.mk h

/-- Two prefixes of the same list are comparable. -/
theorem isPrefixOf_comparable : ∀ (l p q : List Char), p.isPrefixOf l = true →
    q.isPrefixOf l = true → p.isPrefixOf q = true ∨ q.isPrefixOf p = true := by
  intro l
  induction l with
  | nil =>
    intro p q hp _
    cases p with
    | nil => left; cases q <;> rfl
    | cons a as => simp [List.isPrefixOf] at hp
  | cons x xs ih =>
    intro p q hp hq
    cases p with
    | nil => left; cases q <;> rfl
    | cons a as =>
      cases q with
      | nil => right; rfl
      | cons b bs =>
        simp only [List.isPrefixOf, Bool.and_eq_true, beq_iff_eq] at hp hq ⊢
        obtain ⟨hax, hp'⟩ := hp
        obtain ⟨hbx, hq'⟩ := hq
        rcases ih as bs hp' hq' with h | h
        · left; exact ⟨by rw [hax, hbx], h⟩
        · right; exact ⟨by rw [hax, hbx], h⟩

/-- No transaction text can begin with both vote markers. -/
theorem vote_markers_exclusive (s : String) :
    ¬(pyStartswith s "Vote: YES" = true ∧ pyStartswith s "Vote: NO" = true) := by
  rintro ⟨h1, h2⟩
  unfold pyStartswith at h1 h2
  rcases isPrefixOf_comparable s.data _ _ h1 h2 with h | h
  · exact absurd h (by decide)
  · exact absurd h (by decide)

/-- The JSON rendering of a quote-free transaction list is injective, even
followed by arbitrary bracket-terminated suffixes. -/
theorem encTxs_inj : ∀ (ts1 : List String) (ts2 : List String) (r1 r2 : List Char),
    (∀ t ∈ ts1, PlainStr t) → (∀ t ∈ ts2, PlainStr t) →
    encTxs ts1 ++ ']' :: r1 = encTxs ts2 ++ ']' :: r2 → ts1 = ts2 ∧ r1 = r2 := by
  intro ts1
  induction ts1 with
  | nil =>
    intro ts2 r1 r2 _ hp2 h
    cases ts2 with
    | nil =>
      simp only [encTxs, List.nil_append] at h
      injection h with _ h
      exact ⟨rfl, h⟩
    | cons t2 rest2 =>
      cases rest2 with
      | nil =>
        simp only [encTxs, List.nil_append, List.cons_append, List.append_assoc,
          List.singleton_append] at h
        injection h with h1 _
        exact absurd h1 (by decide)
      | cons t3 rest3 =>
        simp only [encTxs, List.nil_append, List.cons_append, List.append_assoc,
          List.singleton_append] at h
        injection h with h1 _
        exact absurd h1 (by decide)
  | cons t1 rest1 ih =>
    intro ts2 r1 r2 hp1 hp2 h
    have hpt1 : PlainStr t1 := hp1 t1 (List.mem_cons_self _ _)
    cases ts2 with
    | nil =>
      cases rest1 with
      | nil =>
        simp only [encTxs, List.nil_append, List.cons_append, List.append_assoc,
          List.singleton_append] at h
        injection h with h1 _
        exact absurd h1 (by decide)
      | cons t1b rest1b =>
        simp only [encTxs, List.nil_append, List.cons_append, List.append_assoc,
          List.singleton_append] at h
        injection h with h1 _
        exact absurd h1 (by decide)
    | cons t2 rest2 =>
      have hpt2 : PlainStr t2 := hp2 t2 (List.mem_cons_self _ _)
      cases rest1 with
      | nil =>
        cases rest2 with
        | nil =>
          simp only [encTxs, List.cons_append, List.append_assoc, List.singleton_append] at h
          injection h with _ h
          obtain ⟨hd, htail⟩ := splitAtChar t1.data _ t2.data _ hpt1.1 hpt2.1 h
          injection htail with _ htail
          exact ⟨by rw [strData_inj hd], htail⟩
        | cons t3 rest3 =>
          simp only [encTxs, List.cons_append, List.append_assoc, List.singleton_append] at h
          injection h with _ h
          obtain ⟨_, htail⟩ := splitAtChar t1.data _ t2.data _ hpt1.1 hpt2.1 h
          injection htail with h1 _
          exact absurd h1 (by decide)
      | cons t1b rest1b =>
        cases rest2 with
        | nil =>
          simp only [encTxs, List.cons_append, List.append_assoc, List.singleton_append] at h
          injection h with _ h
          obtain ⟨_, htail⟩ := splitAtChar t1.data _ t2.data _ hpt1.1 hpt2.1 h
          injection htail with h1 _
          exact absurd h1 (by decide)
        | cons t2b rest2b =>
          simp only [encTxs, List.cons_append, List.append_assoc, List.singleton_append] at h
          injection h with _ h
          obtain ⟨hd, htail⟩ := splitAtChar t1.data _ t2.data _ hpt1.1 hpt2.1 h
          injection htail with _ htail
          injection htail with _ htail
          obtain ⟨hrest, hr⟩ := ih (t2b :: rest2b) r1 r2
            (fun t ht => hp1 t (List.mem_cons_of_mem _ ht))
            (fun t ht => hp2 t (List.mem_cons_of_mem _ ht)) htail
          exact ⟨by rw [strData_inj hd, hrest], hr⟩

/-- Injectivity of the timestamp-and-transactions tail of the signing
payload. -/
theorem tsTxTail_inj {n1 n2 : Nat} {tx1 tx2 : List String}
    (htx1 : ∀ t ∈ tx1, PlainStr t) (htx2 : ∀ t ∈ tx2, PlainStr t)
    (h : natChars n1 ++ (',' :: ' ' :: '"' :: 't' :: 'r' :: 'a' :: 'n' :: 's' :: 'a' :: 'c' ::
          't' :: 'i' :: 'o' :: 'n' :: 's' :: '"' :: ':' :: ' ' :: '[' ::
          (encTxs tx1 ++ [']', '\x7d']))
       = natChars n2 ++ (',' :: ' ' :: '"' :: 't' :: 'r' :: 'a' :: 'n' :: 's' :: 'a' :: 'c' ::
          't' :: 'i' :: 'o' :: 'n' :: 's' :: '"' :: ':' :: ' ' :: '[' ::
          (encTxs tx2 ++ [']', '\x7d']))) :
    n1 = n2 ∧ tx1 = tx2 := by
  obtain ⟨hts, h⟩ := splitAtChar _ _ _ _ (comma_not_mem_natChars n1)
    (comma_not_mem_natChars n2) h
  simp only [List.cons.injEq, List.nil_append, eq_self_iff_true, true_and] at h
  obtain ⟨htx, _⟩ := encTxs_inj _ _ _ _ htx1 htx2 h
  exact ⟨natChars_inj hts, htx⟩

/-- The canonical JSON of the five signable fields is injective on
plain-string fields: `json.dumps(..., sort_keys=True)` loses no
information. -/
theorem signingPayload_inj {f1 f2 : BlockFields} (h1 : PlainFields f1) (h2 : PlainFields f2)
    (h : signingPayload f1 = signingPayload f2) : f1 = f2 := by
  obtain ⟨i1, t1, x1, p1, r1⟩ := f1
  obtain ⟨i2, t2, x2, p2, r2⟩ := f2
  obtain ⟨hph1, hpr1, htx1⟩ := h1
  obtain ⟨hph2, hpr2, htx2⟩ := h2
  dsimp only at hph1 hpr1 htx1 hph2 hpr2 htx2
  simp only [signingPayload, List.append_assoc, List.cons_append, List.nil_append] at h
  simp only [List.cons.injEq, List.nil_append, eq_self_iff_true, true_and] at h
  obtain ⟨hidx, h⟩ := splitAtChar _ _ _ _ (comma_not_mem_natChars i1)
    (comma_not_mem_natChars i2) h
  simp only [List.cons.injEq, List.nil_append, eq_self_iff_true, true_and] at h
  obtain ⟨hph, h⟩ := splitAtChar _ _ _ _ hph1.1 hph2.1 h
  simp only [List.cons.injEq, List.nil_append, eq_self_iff_true, true_and] at h
  cases r1 with
  | none =>
    cases r2 with
    | none =>
      simp only [encProposer, List.cons_append, List.nil_append] at h
      simp only [List.cons.injEq, List.nil_append, eq_self_iff_true, true_and] at h
      obtain ⟨hts, htx⟩ := tsTxTail_inj htx1 htx2 h
      rw [natChars_inj hidx, strData_inj hph, hts, htx]
    | some q2 =>
      exfalso
      simp only [encProposer, List.cons_append, List.append_assoc, List.singleton_append,
        List.nil_append] at h
      injection h with hh _
      exact absurd hh (by decide)
  | some q1 =>
    cases r2 with
    | none =>
      exfalso
      simp only [encProposer, List.cons_append, List.append_assoc, List.singleton_append,
        List.nil_append] at h
      injection h with hh _
      exact absurd hh (by decide)
    | some q2 =>
      have hq1 : PlainStr q1 := hpr1
      have hq2 : PlainStr q2 := hpr2
      simp only [encProposer, List.cons_append, List.append_assoc, List.singleton_append] at h
      injection h with _ h
      obtain ⟨hq, h⟩ := splitAtChar _ _ _ _ hq1.1 hq2.1 h
      simp only [List.cons.injEq, List.nil_append, eq_self_iff_true, true_and] at h
      obtain ⟨hts, htx⟩ := tsTxTail_inj htx1 htx2 h
      rw [natChars_inj hidx, strData_inj hph, strData_inj hq, hts, htx]

/-- The dynamic insufficient-signatures message is never the
continuity-failure message. -/
theorem notEnough_ne_prevMsg (s : String) :
    ("not enough valid signatures (" ++ s ++ "/1)") ≠ "previous_hash mismatch" := by
  intro hh
  have hl := congrArg String.length hh
  rw [String.length_append, String.length_append] at hl
  have h1 : ("not enough valid signatures (").length = 29 := rfl
  have h2 : ("/1)").length = 3 := rfl
  have h3 : ("previous_hash mismatch").length = 22 := rfl
  rw [h1, h2, h3] at hl
  omega

/-- Exhaustive case analysis of the validation body: either it fails, with
the state unchanged and a message other than the continuity one, or it
succeeds, at least one deduplicated attestation verified, and the new
block (built by the Python `Block` constructor from the draft and the
resolved hash) is appended while its transactions leave the mempool. -/
theorem appendChecked_cases (lib : CryptoLib) (now : Nat) (bc : Blockchain) (bd : BlockDict) :
    ((appendChecked lib now bc bd).1.1 = false ∧ (appendChecked lib now bc bd).2 = bc ∧
      (appendChecked lib now bc bd).1.2 ≠ "previous_hash mismatch") ∨
    ((appendChecked lib now bc bd).1.1 = true ∧
      1 ≤ (collectValidSigs lib bc.validators (hash_block_for_signing lib bd)
        bd.signatures).length ∧
      (appendChecked lib now bc bd).2.chain = bc.chain ++
        [Block.mkPy lib now bd.index bd.transactions bd.previous_hash (some bd.timestamp)
          (some (blockHashOf lib now bd)) bd.proposer bd.proposer_sig (some bd.signatures)] ∧
      (appendChecked lib now bc bd).2.current_transactions =
        bd.transactions.foldl (fun cur tx => cur.erase tx) bc.current_transactions ∧
      (appendChecked lib now bc bd).1.2 = "appended") := by
  unfold appendChecked
  dsimp only
  split
  · left
    exact ⟨rfl, rfl, by show ("unknown proposer" : String) ≠ "previous_hash mismatch"; decide⟩
  · split
    · left
      exact ⟨rfl, rfl, by show ("unknown proposer" : String) ≠ "previous_hash mismatch"; decide⟩
    · split
      · left
        exact ⟨rfl, rfl,
          by show ("invalid proposer signature" : String) ≠ "previous_hash mismatch"; decide⟩
      · split
        · left; exact ⟨rfl, rfl, notEnough_ne_prevMsg _⟩
        · right
          refine ⟨rfl, by omega, rfl, rfl, rfl⟩

/-- On an empty ledger the continuity check disappears: the append is the
bare validation body. -/
theorem append_empty_eq_checked (lib : CryptoLib) (now : Nat) (bc : Blockchain) (bd : BlockDict)
    (h : bc.chain = []) : append_committed_block lib now bc bd = appendChecked lib now bc bd := by
  unfold append_committed_block
  rw [h]
  rfl

/-- Exhaustive case analysis of `append_committed_block`: failure leaves
the state unchanged; success appends exactly the constructed block,
evicts its transactions from the mempool, carries at least one verified
attestation, and (on a non-empty chain) extends the current tip. -/
theorem append_cases (lib : CryptoLib) (now : Nat) (bc : Blockchain) (bd : BlockDict) :
    ((append_committed_block lib now bc bd).1.1 = false ∧
      (append_committed_block lib now bc bd).2 = bc) ∨
    ((append_committed_block lib now bc bd).1.1 = true ∧
      1 ≤ (collectValidSigs lib bc.validators (hash_block_for_signing lib bd)
        bd.signatures).length ∧
      (append_committed_block lib now bc bd).2.chain = bc.chain ++
        [Block.mkPy lib now bd.index bd.transactions bd.previous_hash (some bd.timestamp)
          (some (blockHashOf lib now bd)) bd.proposer bd.proposer_sig (some bd.signatures)] ∧
      (append_committed_block lib now bc bd).2.current_transactions =
        bd.transactions.foldl (fun cur tx => cur.erase tx) bc.current_transactions ∧
      (∀ tip, bc.chain.getLast? = some tip → bd.previous_hash = tip.hash)) := by
  unfold append_committed_block
  split
  · rename_i tip heq
    split
    · left; exact ⟨rfl, rfl⟩
    · rename_i hne
      rcases appendChecked_cases lib now bc bd with ⟨hf, hst, _⟩ | ⟨ht, hn, hch, hcur, _⟩
      · left; exact ⟨hf, hst⟩
      · right
        refine ⟨ht, hn, hch, hcur, ?_⟩
        intro tip' htip'
        rw [heq] at htip'
        injection htip' with htip'
        rw [← htip']
        exact not_not.mp hne
  · rename_i heq
    rcases appendChecked_cases lib now bc bd with ⟨hf, hst, _⟩ | ⟨ht, hn, hch, hcur, _⟩
    · left; exact ⟨hf, hst⟩
    · right
      refine ⟨ht, hn, hch, hcur, ?_⟩
      intro tip' htip'
      rw [heq] at htip'
      exact absurd htip' (by simp)

/-- A valid non-empty prefix decomposes: the head link checks pass and the
tail stays valid. -/
theorem chainValidFrom_cons_true {lib : CryptoLib} {prev c : Block} {rest : List Block}
    (h : (chainValidFrom lib prev (c :: rest)).1 = true) :
    c.hash = calcHash lib c.fields ∧ c.previous_hash = prev.hash ∧
      (chainValidFrom lib c rest).1 = true := by
  unfold chainValidFrom at h
  by_cases h1 : c.hash ≠ calcHash lib c.fields
  · rw [if_pos h1] at h; exact Bool.noConfusion h
  · rw [if_neg h1] at h
    by_cases h2 : c.previous_hash ≠ prev.hash
    · rw [if_pos h2] at h; exact Bool.noConfusion h
    · rw [if_neg h2] at h
      exact ⟨not_not.mp h1, not_not.mp h2, h⟩

/-- Appending a correctly hashed, correctly linked block to a valid walk
keeps the walk valid. -/
theorem chainValidFrom_append_true {lib : CryptoLib} (b : Block) :
    ∀ (blocks : List Block) (prev : Block), (chainValidFrom lib prev blocks).1 = true →
    b.hash = calcHash lib b.fields → b.previous_hash = (blocks.getLastD prev).hash →
    (chainValidFrom lib prev (blocks ++ [b])).1 = true := by
  intro blocks
  induction blocks with
  | nil =>
    intro prev _ hb hp
    simp only [List.getLastD] at hp
    show (chainValidFrom lib prev [b]).1 = true
    unfold chainValidFrom
    rw [if_neg (not_not_intro hb), if_neg (not_not_intro hp)]
    rfl
  | cons c rest ih =>
    intro prev h hb hp
    obtain ⟨h1, h2, h3⟩ := chainValidFrom_cons_true h
    show (chainValidFrom lib prev (c :: (rest ++ [b]))).1 = true
    unfold chainValidFrom
    rw [if_neg (not_not_intro h1), if_neg (not_not_intro h2)]
    refine ih c h3 hb ?_
    rw [List.getLastD_cons] at hp
    exact hp

/-- The optional last element of a non-empty list, through `getLastD`. -/
theorem getLast?_cons_eq : ∀ (xs : List Block) (x : Block),
    (x :: xs).getLast? = some (xs.getLastD x) := by
  intro xs
  induction xs with
  | nil => intro x; simp
  | cons y ys ih => intro x; rw [List.getLast?_cons_cons, ih y, List.getLastD_cons]

/-- C9: signature verification is total — for every public key string,
message and signature string, `verify_pem` returns a boolean, and any
failure of the underlying library (malformed PEM key, malformed base64,
cryptographic mismatch / `BadSignatureError`) yields `false`; `true` is
possible only when every stage of the pipeline succeeded. -/
theorem c9_verify_total (lib : CryptoLib) (pem msg sig : String) :
    (lib.fromPem pem = none → verify_pem lib pem msg sig = false) ∧
    (lib.b64decode sig = none → verify_pem lib pem msg sig = false) ∧
    (verify_pem lib pem msg sig = true →
      ∃ k s, lib.fromPem pem = some k ∧ lib.b64decode sig = some s ∧
        lib.rawVerify k s msg = some true) := by
  refine ⟨fun h => by simp [verify_pem, h], fun h => ?_, fun h => ?_⟩
  · unfold verify_pem
    cases hk : lib.fromPem pem with
    | none => rfl
    | some k => simp [h]
  · unfold verify_pem at h
    cases hk : lib.fromPem pem with
    | none => rw [hk] at h; exact Bool.noConfusion h
    | some k =>
      rw [hk] at h
      dsimp only at h
      cases hs : lib.b64decode sig with
      | none => rw [hs] at h; exact Bool.noConfusion h
      | some s =>
        rw [hs] at h
        dsimp only at h
        cases hv : lib.rawVerify k s msg with
        | none => rw [hv] at h; exact Bool.noConfusion h
        | some b =>
          rw [hv] at h
          exact ⟨k, s, rfl, rfl, by rw [hv]; exact congrArg some h⟩

/-- Witness for C9 at a concrete input: a library whose PEM parser rejects
everything makes `verify_pem` return `false`. -/
theorem c9_verify_total_witness :
    libAllFail.fromPem "k" = none ∧ verify_pem libAllFail "k" "m" "s" = false :=
  ⟨rfl, (c9_verify_total libAllFail "k" "m" "s").1 rfl⟩

/-- C3: whenever `append_committed_block` rejects a draft, the ledger (same
blocks) and the pending-transaction list are unchanged. -/
theorem c3_reject_preserves_state (lib : CryptoLib) (now : Nat) (bc : Blockchain)
    (bd : BlockDict) (h : (append_committed_block lib now bc bd).1.1 = false) :
    (append_committed_block lib now bc bd).2.chain = bc.chain ∧
    (append_committed_block lib now bc bd).2.current_transactions = bc.current_transactions := by
  rcases append_cases lib now bc bd with ⟨_, hst⟩ | ⟨ht, _⟩
  · rw [hst]; exact ⟨rfl, rfl⟩
  · rw [ht] at h; exact Bool.noConfusion h

/-- Witness for C3 at a concrete input: an append with an unknown proposer
fails and leaves the state untouched. -/
theorem c3_reject_preserves_state_witness :
    (append_committed_block lib1 0 bcNoVal bdOneSig).1.1 = false ∧
    (append_committed_block lib1 0 bcNoVal bdOneSig).2.chain = bcNoVal.chain ∧
    (append_committed_block lib1 0 bcNoVal bdOneSig).2.current_transactions =
      bcNoVal.current_transactions :=
  ⟨by decide, (c3_reject_preserves_state lib1 0 bcNoVal bdOneSig (by decide)).1,
    (c3_reject_preserves_state lib1 0 bcNoVal bdOneSig (by decide)).2⟩

/-- C10: when the ledger is empty the continuity check is skipped — no
draft is ever rejected with `previous_hash mismatch`, whatever its
`previous_hash`, and on success the draft becomes the sole (first) block
of the chain, with genesis not enforced on this path. -/
theorem c10_empty_chain_no_continuity (lib : CryptoLib) (now : Nat) (bc : Blockchain)
    (bd : BlockDict) (h : bc.chain = []) :
    (append_committed_block lib now bc bd).1.2 ≠ "previous_hash mismatch" ∧
    ((append_committed_block lib now bc bd).1.1 = true →
      (append_committed_block lib now bc bd).2.chain.length = 1) := by
  rw [append_empty_eq_checked lib now bc bd h]
  rcases appendChecked_cases lib now bc bd with ⟨hf, _, hmsg⟩ | ⟨_, _, hch, _, hap⟩
  · exact ⟨hmsg, fun hc => by rw [hf] at hc; exact Bool.noConfusion hc⟩
  · refine ⟨?_, fun _ => ?_⟩
    · rw [hap]; decide
    · rw [hch, h]
      rfl

/-- Witness for C10 at a concrete input: on an empty chain a draft whose
`previous_hash` is the arbitrary string `"whatever"` is appended as the
first block. -/
theorem c10_empty_chain_no_continuity_witness :
    bcEmpty.chain = [] ∧
    (append_committed_block lib1 0 bcEmpty (mkDraftA 1 ["x"] "whatever" none)).1.1 = true ∧
    (append_committed_block lib1 0 bcEmpty (mkDraftA 1 ["x"] "whatever" none)).1.2 ≠
      "previous_hash mismatch" ∧
    (append_committed_block lib1 0 bcEmpty (mkDraftA 1 ["x"] "whatever" none)).2.chain.length
      = 1 :=
  ⟨rfl, by decide,
    (c10_empty_chain_no_continuity lib1 0 bcEmpty (mkDraftA 1 ["x"] "whatever" none) rfl).1,
    (c10_empty_chain_no_continuity lib1 0 bcEmpty (mkDraftA 1 ["x"] "whatever" none) rfl).2
      (by decide)⟩

/-- C1 counterexample: with a validator registry of size 4 the claimed
quorum is 3, yet `append_committed_block` accepts a block carrying exactly
one verified attestation — the code's `needed` is hard-coded to 1. -/
theorem c1_quorum_counterexample :
    bcGen4.validators.length = 4 ∧ THRESHOLD 4 = 3 ∧
    (collectValidSigs lib1 bcGen4.validators (hash_block_for_signing lib1 bdOneSig)
      bdOneSig.signatures).length = 1 ∧
    (append_committed_block lib1 9 bcGen4 bdOneSig).1.1 = true := by
  refine ⟨rfl, rfl, by decide, by decide⟩

/-- C1 amended: `append_committed_block` requires only that the verified,
deduplicated-by-identity attestation count be at least 1, independent of
the registry size; the quorum formula max(1, floor(max(1,n)/2)+1) — 3 for
size 4, 1 for sizes 1 and 0 — lives in the proposer loop, not in the
append path. -/
theorem c1_quorum_amended (lib : CryptoLib) (now : Nat) (bc : Blockchain) (bd : BlockDict)
    (h : (append_committed_block lib now bc bd).1.1 = true) :
    1 ≤ (collectValidSigs lib bc.validators (hash_block_for_signing lib bd)
      bd.signatures).length ∧ THRESHOLD 4 = 3 ∧ THRESHOLD 1 = 1 ∧ THRESHOLD 0 = 1 := by
  rcases append_cases lib now bc bd with ⟨hf, _⟩ | ⟨_, hn, _⟩
  · rw [hf] at h; exact Bool.noConfusion h
  · exact ⟨hn, rfl, rfl, rfl⟩

/-- Witness for the amended C1 at a concrete input: a successful append on
the single-validator ledger carries at least one verified attestation. -/
theorem c1_quorum_amended_witness :
    (append_committed_block lib1 9 bcGen1 bdOneSig).1.1 = true ∧
    (1 ≤ (collectValidSigs lib1 bcGen1.validators (hash_block_for_signing lib1 bdOneSig)
      bdOneSig.signatures).length ∧ THRESHOLD 4 = 3 ∧ THRESHOLD 1 = 1 ∧ THRESHOLD 0 = 1) :=
  ⟨by decide, c1_quorum_amended lib1 9 bcGen1 bdOneSig (by decide)⟩

/-- The hash the append path stores when the draft supplies none is the
recomputed digest of the five signable fields (with the constructor's
timestamp substitution applied). -/
theorem appended_hash_of_none (lib : CryptoLib) (now : Nat) (bd : BlockDict)
    (hhash : bd.hash = none ∨ bd.hash = some (calcHash lib (effFields now bd))) :
    (Block.mkPy lib now bd.index bd.transactions bd.previous_hash (some bd.timestamp)
      (some (blockHashOf lib now bd)) bd.proposer bd.proposer_sig (some bd.signatures)).hash
      = calcHash lib (effFields now bd) := by
  have hb1 : blockHashOf lib now bd = calcHash lib (effFields now bd) := by
    unfold blockHashOf
    rcases hhash with hn | hs
    · rw [hn]
    · rw [hs]
      dsimp only
      split <;> rfl
  unfold Block.mkPy
  rw [hb1]
  dsimp only
  split <;> rfl

/-- C5: when the incoming draft carries no hash, the stored hash is the
digest recomputed from the five signable fields; when the draft supplies
a hash, it is stored as-is — concretely, a draft whose supplied hash
`"FORGED"` differs from the recomputed digest but whose signatures are
valid is still appended, with `"FORGED"` stored. -/
theorem c5_supplied_hash_trusted (lib : CryptoLib) (now : Nat) (bc : Blockchain)
    (bd : BlockDict) (hnone : bd.hash = none)
    (hsucc : (append_committed_block lib now bc bd).1.1 = true) :
    ((append_committed_block lib now bc bd).2.chain.getLast?).map Block.hash =
      some (calcHash lib (effFields now bd)) ∧
    (append_committed_block lib1 5 bcGen1 bdForged).1.1 = true ∧
    ((append_committed_block lib1 5 bcGen1 bdForged).2.chain.getLast?).map Block.hash =
      some "FORGED" ∧
    "FORGED" ≠ calcHash lib1 (effFields 5 bdForged) := by
  refine ⟨?_, by decide, by decide, by decide⟩
  rcases append_cases lib now bc bd with ⟨hf, _⟩ | ⟨_, _, hch, _, _⟩
  · rw [hf] at hsucc; exact Bool.noConfusion hsucc
  · rw [hch, List.getLast?_concat, Option.map_some']
    exact congrArg some (appended_hash_of_none lib now bd (Or.inl hnone))

/-- Witness for C5 at a concrete input: a hashless draft is appended and
the stored hash is the recomputed digest. -/
theorem c5_supplied_hash_trusted_witness :
    bdOneSig.hash = none ∧
    (append_committed_block lib1 9 bcGen1 bdOneSig).1.1 = true ∧
    ((append_committed_block lib1 9 bcGen1 bdOneSig).2.chain.getLast?).map Block.hash =
      some (calcHash lib1 (effFields 9 bdOneSig)) :=
  ⟨rfl, by decide, (c5_supplied_hash_trusted lib1 9 bcGen1 bdOneSig rfl (by decide)).1⟩

/-- C6 counterexample: `append_committed_block` never validates the draft's
`index`, so a block whose index field is 999 is appended at position 1 of
the chain. -/
theorem c6_index_counterexample :
    (append_committed_block lib1 9 bcGen1 bd999).1.1 = true ∧
    (append_committed_block lib1 9 bcGen1 bd999).2.chain.length = 2 ∧
    ((append_committed_block lib1 9 bcGen1 bd999).2.chain.getLast?).map Block.index =
      some 999 ∧
    (999 : Nat) ≠ 1 := by
  refine ⟨by decide, by decide, by decide, by decide⟩

/-- C6 amended: the proposer loop's block candidate carries `index` equal
to the ledger height at build time, and the append path stores the
draft's index verbatim without checking it against the position. -/
theorem c6_index_amended (now : Nat) (node : String) (mp : List String) (mt : Nat)
    (bc : Blockchain) (lib : CryptoLib) (now2 : Nat) (bd : BlockDict)
    (h : (append_committed_block lib now2 bc bd).1.1 = true) :
    (block_candidate now node mp mt bc).index = bc.chain.length ∧
    ((append_committed_block lib now2 bc bd).2.chain.getLast?).map Block.index =
      some bd.index := by
  refine ⟨rfl, ?_⟩
  rcases append_cases lib now2 bc bd with ⟨hf, _⟩ | ⟨_, _, hch, _, _⟩
  · rw [hf] at h; exact Bool.noConfusion h
  · rw [hch, List.getLast?_concat, Option.map_some']
    rfl

/-- Witness for the amended C6 at a concrete input. -/
theorem c6_index_amended_witness :
    (append_committed_block lib1 9 bcGen1 bdOneSig).1.1 = true ∧
    ((block_candidate 3 "A" ["m"] 3 bcGen1).index = bcGen1.chain.length ∧
      ((append_committed_block lib1 9 bcGen1 bdOneSig).2.chain.getLast?).map Block.index =
        some bdOneSig.index) :=
  ⟨by decide, c6_index_amended 3 "A" ["m"] 3 bcGen1 lib1 9 bdOneSig (by decide)⟩

/-- C2 counterexample: a successfully appended block whose draft supplied
the forged hash `"FORGED"` breaks `is_chain_valid` — the claim fails for
blocks accepted with a foreign hash value. -/
theorem c2_validity_counterexample :
    (append_committed_block lib1 5 bcGen1 bdForged).1.1 = true ∧
    (is_chain_valid lib1 (append_committed_block lib1 5 bcGen1 bdForged).2).1 = false :=
  ⟨by decide, by decide⟩

/-- C2 amended: `is_chain_valid` succeeds immediately after genesis
creation, and every append accepted from a draft that omits the hash (or
supplies exactly the recomputed digest) preserves chain validity. -/
theorem c2_validity_amended :
    (∀ (lib : CryptoLib) (now : Nat) (ct : List String) (vs : List Validator),
      (is_chain_valid lib (create_genesis_block lib now ⟨[], ct, vs⟩)).1 = true) ∧
    (∀ (lib : CryptoLib) (now : Nat) (bc : Blockchain) (bd : BlockDict),
      (is_chain_valid lib bc).1 = true →
      (bd.hash = none ∨ bd.hash = some (calcHash lib (effFields now bd))) →
      (append_committed_block lib now bc bd).1.1 = true →
      (is_chain_valid lib (append_committed_block lib now bc bd).2).1 = true) := by
  constructor
  · intro lib now ct vs
    rfl
  · intro lib now bc bd hvalid hhash hsucc
    rcases append_cases lib now bc bd with ⟨hf, _⟩ | ⟨_, _, hch, _, htip⟩
    · rw [hf] at hsucc; exact Bool.noConfusion hsucc
    · have hbh := appended_hash_of_none lib now bd hhash
      unfold is_chain_valid
      cases hc : bc.chain with
      | nil =>
        rw [hch, hc]
        simp only [List.nil_append]
        rfl
      | cons x xs =>
        rw [hch, hc]
        simp only [List.cons_append]
        show (chainValidFrom lib x (xs ++
          [Block.mkPy lib now bd.index bd.transactions bd.previous_hash (some bd.timestamp)
            (some (blockHashOf lib now bd)) bd.proposer bd.proposer_sig
            (some bd.signatures)])).1 = true
        have hvalid' : (chainValidFrom lib x xs).1 = true := by
          unfold is_chain_valid at hvalid
          rw [hc] at hvalid
          exact hvalid
        apply chainValidFrom_append_true
        · exact hvalid'
        · exact hbh
        · exact htip (xs.getLastD x) (by rw [hc]; exact getLast?_cons_eq xs x)

/-- Witness for the amended C2 at concrete inputs: validity after genesis
creation and after a successful hashless append. -/
theorem c2_validity_amended_witness :
    (is_chain_valid lib1 (create_genesis_block lib1 7 ⟨[], [], [vA]⟩)).1 = true ∧
    ((is_chain_valid lib1 bcGen1).1 = true ∧ bdOneSig.hash = none ∧
      (append_committed_block lib1 9 bcGen1 bdOneSig).1.1 = true ∧
      (is_chain_valid lib1 (append_committed_block lib1 9 bcGen1 bdOneSig).2).1 = true) :=
  ⟨c2_validity_amended.1 lib1 7 [] [vA],
    by decide, rfl, by decide,
    c2_validity_amended.2 lib1 9 bcGen1 bdOneSig (by decide) (Or.inl rfl) (by decide)⟩

/-- C4: on the ledger holding blocks with transactions
`["Vote: YES", "x"]` and `["Vote: NO"]` plus the pending transaction
`"Vote: YES"`, the tally is 2 YES and 1 NO; in general a transaction
counts as YES/NO exactly when its text begins with the corresponding
`"Vote: ..."` marker, with committed blocks and pending entries both
counted. -/
theorem c4_tally (tx : String) :
    count_votes bcTally = (2, 1) ∧
    count_votes ⟨[], [tx], []⟩ =
      ((if pyStartswith tx "Vote: YES" then 1 else 0),
       (if pyStartswith tx "Vote: NO" then 1 else 0)) := by
  constructor
  · decide
  · by_cases hy : pyStartswith tx "Vote: YES" = true
    · have hn : ¬ pyStartswith tx "Vote: NO" = true :=
        fun hn' => vote_markers_exclusive tx ⟨hy, hn'⟩
      simp [count_votes, countTxs, hy, hn]
    · by_cases hno : pyStartswith tx "Vote: NO" = true
      · simp [count_votes, countTxs, hy, hno]
      · simp [count_votes, countTxs, hy, hno]

/-- C7: the signing digest is a pure function of the five signable fields
— equal fields give equal digests, the digest ignores `proposer_sig` and
`signatures` entirely, and (for plain string fields, under an injective
digest primitive) records differing in any of the five fields give
different digests. -/
theorem c7_digest_pure (lib : CryptoLib) (bd1 bd2 : BlockDict) (s1 s2 : Option String)
    (g1 g2 : List SigEntry) (hinj : Function.Injective lib.shaBytes)
    (hp1 : PlainFields (bdFields bd1)) (hp2 : PlainFields (bdFields bd2)) :
    (bdFields bd1 = bdFields bd2 →
      hash_block_for_signing lib bd1 = hash_block_for_signing lib bd2) ∧
    (hash_block_for_signing lib { bd1 with proposer_sig := s1, signatures := g1 } =
      hash_block_for_signing lib { bd1 with proposer_sig := s2, signatures := g2 }) ∧
    (bdFields bd1 ≠ bdFields bd2 →
      hash_block_for_signing lib bd1 ≠ hash_block_for_signing lib bd2) := by
  refine ⟨fun h => by unfold hash_block_for_signing; rw [h], rfl, fun hne hd => ?_⟩
  exact hne (signingPayload_inj hp1 hp2 (hinj hd))

/-- Witness for C7 at concrete inputs: two plain drafts differing only in
`index` (and in their signature fields) have different digests under an
injective digest primitive. -/
theorem c7_digest_pure_witness :
    Function.Injective lib1.shaBytes ∧ PlainFields (bdFields bdDigestA) ∧
    PlainFields (bdFields bdDigestB) ∧ bdFields bdDigestA ≠ bdFields bdDigestB ∧
    hash_block_for_signing lib1 bdDigestA ≠ hash_block_for_signing lib1 bdDigestB := by
  have hinj : Function.Injective lib1.shaBytes := fun a b h => congrArg String.data h
  exact ⟨hinj, by decide, by decide, by decide,
    (c7_digest_pure lib1 bdDigestA bdDigestB none none [] [] hinj (by decide)
      (by decide)).2.2 (by decide)⟩

/-- Rebuilding a block from its persisted record recovers the block
exactly, provided its stored timestamp and hash are not Python-falsy. -/
theorem fromRecord_to_dict (lib : CryptoLib) (now : Nat) (b : Block)
    (ht : b.timestamp ≠ 0) (hh : b.hash ≠ "") :
    Block.fromRecord lib now (Block.to_dict b) = b := by
  unfold Block.fromRecord Block.to_dict Block.mkPy effTimestamp
  dsimp only
  rw [if_neg ht, if_neg hh]
  rfl

/-- Round-tripping a whole block list through records recovers the list. -/
theorem map_record_roundtrip (lib : CryptoLib) (now : Nat) :
    ∀ l : List Block, (∀ b ∈ l, b.timestamp ≠ 0 ∧ b.hash ≠ "") →
    ((l.map Block.to_dict).map (Block.fromRecord lib now)) = l := by
  intro l
  induction l with
  | nil => intro _; rfl
  | cons x xs ih =>
    intro hok
    simp only [List.map_cons]
    rw [fromRecord_to_dict lib now x (hok x (List.mem_cons_self _ _)).1
      (hok x (List.mem_cons_self _ _)).2,
      ih (fun b hb => hok b (List.mem_cons_of_mem _ hb))]

/-- C8: serializing the ledger with `save_chain` and reloading it with
`load_chain` yields a chain of blocks identical in every field, for every
ledger whose blocks carry a non-zero timestamp and a non-empty hash (the
Python constructor treats falsy values as absent, so those degenerate
values are the only ones not preserved verbatim). -/
theorem c8_roundtrip (lib : CryptoLib) (now : Nat) (bc : Blockchain)
    (hne : bc.chain ≠ [])
    (hok : ∀ b ∈ bc.chain, b.timestamp ≠ 0 ∧ b.hash ≠ "") :
    (load_chain lib now (some (save_chain bc)) bc).chain = bc.chain := by
  unfold load_chain save_chain
  cases hc : bc.chain with
  | nil => exact absurd hc hne
  | cons x xs =>
    rw [hc] at hok
    simp only [List.map_cons]
    show ((Block.to_dict x :: xs.map Block.to_dict).map (Block.fromRecord lib now)) = x :: xs
    rw [← List.map_cons]
    exact map_record_roundtrip lib now (x :: xs) hok

/-- Witness for C8 at a concrete input: the genesis-only ledger
round-trips exactly. -/
theorem c8_roundtrip_witness :
    bcGen1.chain ≠ [] ∧ (∀ b ∈ bcGen1.chain, b.timestamp ≠ 0 ∧ b.hash ≠ "") ∧
    (load_chain lib1 0 (some (save_chain bcGen1)) bcGen1).chain = bcGen1.chain :=
  ⟨by decide, by decide, c8_roundtrip lib1 0 bcGen1 (by decide) (by decide)⟩
